import Mathlib

/-!
Verification of the schema-inference and table-diff core of the bulker
repository (Go sources under `src/`), as a shallow embedding in Lean 4.

Embedding conventions:
* Go maps keyed by strings (`Fields`, `Columns`) become association lists
  `List (String × _)`; Go guarantees key uniqueness, which appears as
  `Nodup` hypotheses where a theorem needs it.
* Go sets (`map[DataType]bool` used for key membership only, `utils.Set`)
  become `Finset`.
* Go mutation becomes explicit value passing: a method that mutates its
  receiver is a function returning the updated receiver.
* Go nil pointers become `Option`.
-/

namespace Bulker

/-- Modelled from the spec: the `DataType` enumeration is declared outside the
given excerpt (the excerpt references only `UNKNOWN`).  Spec §3: "an enumerated
primitive kind (e.g. unknown, boolean, integer, floating-point, timestamp,
string; string is the universal supertype)". -/
inductive DataType where
  | UNKNOWN
  | BOOL
  | INT64
  | FLOAT64
  | STRING
  | TIMESTAMP
deriving DecidableEq, Repr, Fintype

open DataType

/-- Modelled from the spec: `GetCommonAncestorType` (the lattice join) is
declared outside the given excerpt.  Spec §4.1: commutative, associative,
idempotent, with `STRING` as absorbing universal supertype; any two
incompatible kinds join to `STRING`.  `UNKNOWN` ("no information") is the
bottom element, `INT64` widens to `FLOAT64`; `BOOL`, `TIMESTAMP` and
`FLOAT64` are pairwise incompatible. -/
def GetCommonAncestorType (t1 t2 : DataType) : DataType :=
  if t1 = t2 then t1
  else
    match t1, t2 with
    | UNKNOWN, x => x
    | x, UNKNOWN => x
    | INT64, FLOAT64 => FLOAT64
    | FLOAT64, INT64 => FLOAT64
    | _, _ => STRING

instance : Std.Commutative GetCommonAncestorType := ⟨by decide⟩

instance : Std.Associative GetCommonAncestorType := ⟨by decide⟩

instance : Std.IdempotentOp GetCommonAncestorType := ⟨by decide⟩

/-- Folding the join over a `Finset` of observed kinds.  `UNKNOWN` is the
join's identity, which also matches the source's `UNKNOWN` fallback for an
empty occurrence set. -/
def joinFinset (s : Finset DataType) : DataType :=
  s.fold GetCommonAncestorType UNKNOWN id

/-- The fold the Go `Field.GetType` body performs over the occurrence kinds in
map-iteration order: `common := types[0]; for ...: common = join(common, t)`,
with the `UNKNOWN` fallback for the (invariant-violating) empty list. -/
def joinList : List DataType → DataType
  | [] => UNKNOWN
  | t :: ts => ts.foldl GetCommonAncestorType t

theorem join_assoc (a b c : DataType) :
    GetCommonAncestorType (GetCommonAncestorType a b) c =
      GetCommonAncestorType a (GetCommonAncestorType b c) := by
  revert a b c
  decide

theorem join_unknown_right (a : DataType) : GetCommonAncestorType a UNKNOWN = a := by
  cases a <;> rfl

theorem join_unknown_left (a : DataType) : GetCommonAncestorType UNKNOWN a = a := by
  cases a <;> rfl

theorem joinFinset_insert (a : DataType) (s : Finset DataType) :
    joinFinset (insert a s) = GetCommonAncestorType a (joinFinset s) := by
  simp [joinFinset, Finset.fold_insert_idem]

theorem foldl_join_eq (l : List DataType) :
    ∀ b : DataType, l.foldl GetCommonAncestorType b =
      GetCommonAncestorType b (joinFinset l.toFinset) := by
  induction l with
  | nil => intro b; simp [joinFinset, join_unknown_right]
  | cons a l ih =>
      intro b
      simp only [List.foldl_cons, List.toFinset_cons, joinFinset_insert, ih]
      rw [← join_assoc]

/-- The Go-style seeded fold over any enumeration equals the canonical
`Finset` fold. -/
theorem joinList_eq_joinFinset (l : List DataType) :
    joinList l = joinFinset l.toFinset := by
  cases l with
  | nil => rfl
  | cons a l =>
      simp only [joinList, List.toFinset_cons, joinFinset_insert, foldl_join_eq]

theorem joinFinset_union (s t : Finset DataType) :
    joinFinset (s ∪ t) = GetCommonAncestorType (joinFinset s) (joinFinset t) := by
  induction s using Finset.induction_on with
  | empty =>
      simp [joinFinset, Finset.fold_empty, join_unknown_left]
  | insert h ih =>
      rename_i a s
      rw [Finset.insert_union, joinFinset_insert, joinFinset_insert, ih,
        join_assoc]

/-! ## SQL column descriptors and `Field`/`Fields` (src/unnamed/part_000) -/

/-- `SQLColumn` from the repository (declared outside the excerpt; field usage
visible in `table.go` and `part_000`, shape per spec §3: "type name, generic
column-type tag, an override flag").  The Go field `Type` is renamed `type_`
because `Type` is a Lean keyword; the tag is modelled as a string. -/
structure SQLColumn where
  type_ : String := ""
  ColumnType : String := ""
  Override : Bool := false
deriving DecidableEq, Repr

/-- `SQLTypeSuggestion` keeps certain SQL types per certain destination type
(Go: `sqlType SQLColumn; sqlTypePerDestination map[string]SQLColumn`). -/
structure SQLTypeSuggestion where
  sqlType : SQLColumn
  sqlTypePerDestination : List (String × SQLColumn)
deriving DecidableEq, Repr

/-- `Field` is a data type holder with occurrences (Go:
`dataType *DataType; sqlTypeSuggestion *SQLTypeSuggestion;
typeOccurrence map[DataType]bool`).  The occurrence map is used for key
membership only (every stored value is `true`), so it is a `Finset`. -/
structure Field where
  dataType : Option DataType := none
  sqlTypeSuggestion : Option SQLTypeSuggestion := none
  typeOccurrence : Finset DataType := ∅
deriving DecidableEq

/-- `NewField` returns a `Field` instance. -/
def NewField (t : DataType) : Field :=
  { dataType := some t, typeOccurrence := {t} }

/-- `NewFieldWithSQLType` returns a `Field` instance with configured suggested
SQL types. -/
def NewFieldWithSQLType (t : DataType) (sugg : Option SQLTypeSuggestion) : Field :=
  { dataType := some t, sqlTypeSuggestion := sugg, typeOccurrence := {t} }

/-- Association-list lookup for string-keyed Go maps. -/
def lookupName {α : Type _} : List (String × α) → String → Option α
  | [], _ => none
  | p :: rest, name => if p.1 = name then some p.2 else lookupName rest name

/-- The key list of a string-keyed association list. -/
def keysOf {α : Type _} (l : List (String × α)) : List String :=
  l.map Prod.fst

/-- `Field.GetSuggestedSQLType` returns the suggested SQL type if configured:
prefer the per-destination entry, fall back to the default when its type name
is non-empty, and mark the result as an override.  The second component models
the Go `ok` result. -/
def Field.GetSuggestedSQLType (f : Field) (destinationType : String) : SQLColumn × Bool :=
  match f.sqlTypeSuggestion with
  | some sugg =>
    match lookupName sugg.sqlTypePerDestination destinationType with
    | some sqlType =>
        ({ type_ := sqlType.type_, ColumnType := sqlType.ColumnType, Override := true }, true)
    | none =>
        if sugg.sqlType.type_ ≠ "" then
          ({ type_ := sugg.sqlType.type_, ColumnType := sugg.sqlType.ColumnType,
             Override := true }, true)
        else ({}, false)
  | none => ({}, false)

/-- `Field.GetType` gets the field type based on occurrences: return the cached
type when set, else fold the lattice join over the occurrence set (the Go loop
folds in map-iteration order; `joinList_eq_joinFinset` shows every order gives
this canonical fold, and the `UNKNOWN` base is the Go fallback for the
invariant-violating empty set). -/
def Field.GetType (f : Field) : DataType :=
  match f.dataType with
  | some t => t
  | none => joinFinset f.typeOccurrence

/-- The Go `GetType` has a VALUE receiver: the body's final
`f.dataType = &common` assigns into the receiver copy, which is discarded when
the call returns.  `GetTypeCall` models the call as seen by the caller: the
returned type together with the caller's field afterwards — which is exactly
the unchanged field. -/
def Field.GetTypeCall (f : Field) : DataType × Field :=
  (f.GetType, f)

/-- The state of the receiver COPY at the end of the Go `GetType` body (the
comment "put result to dataType" in the source): the computed join is written
into the copy's cache.  The copy is discarded at return. -/
def Field.GetTypeReceiverCopy (f : Field) : Field :=
  match f.dataType with
  | some _ => f
  | none => { f with dataType := some (joinFinset f.typeOccurrence) }

/-- `Field.Merge` adds the other field's type occurrences and wipes the cached
type if a new kind was added (Go: loop over `anotherField.typeOccurrence`
inserting missing kinds, setting `f.dataType = nil` whenever one is inserted;
when nothing is missing the receiver is untouched). -/
def Field.Merge (f anotherField : Field) : Field :=
  if anotherField.typeOccurrence ⊆ f.typeOccurrence then f
  else { f with dataType := none,
                typeOccurrence := f.typeOccurrence ∪ anotherField.typeOccurrence }

/-- `Fields` is a map from field name to `Field`; Go map ⇒ association list
with unique keys. -/
abbrev Fields := List (String × Field)

/-- One iteration of the Go `Fields.Merge` loop body. -/
def Fields.mergeStep (acc : Fields) (p : String × Field) : Fields :=
  match lookupName acc p.1 with
  | some currentField => acc.map fun q => if q.1 = p.1 then (p.1, currentField.Merge p.2) else q
  | none => acc ++ [p]

/-- `Fields.Merge` adds all fields from `other` to the current instance, or
merges when the name exists. -/
def Fields.Merge (f other : Fields) : Fields :=
  other.foldl Fields.mergeStep f

/-- One iteration of the Go `Fields.Add` loop body. -/
def Fields.addStep (acc : Fields) (p : String × Field) : Fields :=
  match lookupName acc p.1 with
  | some _ => acc
  | none => acc ++ [p]

/-- `Fields.Add` adds all new fields from `other` to the current instance; if
the field exists it is skipped. -/
def Fields.Add (f other : Fields) : Fields :=
  other.foldl Fields.addStep f

/-- `Fields.Clone` copies fields into a new `Fields` object.  The Go struct
literal `Field{dataType: ..., typeOccurrence: clonedTypeOccurence}` leaves
`sqlTypeSuggestion` at its zero value `nil`, so the clone drops suggestions. -/
def Fields.Clone (f : Fields) : Fields :=
  f.map fun p =>
    (p.1, { dataType := p.2.dataType, typeOccurrence := p.2.typeOccurrence })

/-- The repository invariant on a `Field`'s cache (spec §3: "if the cached type
is non-nil it must equal the lattice join of all occurrences").  It holds for
`NewField`/`NewFieldWithSQLType` and is preserved by `Field.Merge`
(`newField_cacheWF`, `merge_cacheWF`). -/
def Field.CacheWF (f : Field) : Prop :=
  ∀ t, f.dataType = some t → t = joinFinset f.typeOccurrence

instance (f : Field) : Decidable f.CacheWF := by
  unfold Field.CacheWF; infer_instance

/-! ## Lemmas about the association-list operations -/

theorem lookupName_append {α : Type _} (l₁ l₂ : List (String × α)) (m : String) :
    lookupName (l₁ ++ l₂) m = (lookupName l₁ m).or (lookupName l₂ m) := by
  induction l₁ with
  | nil => simp [lookupName]
  | cons p rest ih =>
      by_cases hp : p.1 = m <;> simp [lookupName, hp, ih]

theorem lookupName_eq_none_of_not_mem {α : Type _} (l : List (String × α)) (m : String)
    (h : m ∉ keysOf l) : lookupName l m = none := by
  induction l with
  | nil => rfl
  | cons p rest ih =>
      simp only [keysOf, List.map_cons, List.mem_cons, not_or] at h
      have h1 : ¬ p.1 = m := fun hc => h.1 hc.symm
      simp [lookupName, h1, ih (by simpa [keysOf] using h.2)]

theorem lookupName_mapUpdate (f : Fields) (name m : String) (fld : Field) :
    lookupName (f.map fun q => if q.1 = name then (name, fld) else q) m =
      if name = m then (lookupName f m).map (fun _ => fld) else lookupName f m := by
  induction f with
  | nil => simp [lookupName]
  | cons p rest ih =>
      by_cases hm : name = m
      · subst hm
        by_cases hp : p.1 = name <;> simp [lookupName, hp, ih]
      · have hmn : ¬ m = name := fun hc => hm hc.symm
        by_cases hp : p.1 = name
        · have hpm : ¬ p.1 = m := by rw [hp]; exact hm
          simp [lookupName, hp, hm, hpm, ih]
        · by_cases hpm : p.1 = m <;> simp [lookupName, hp, hm, hpm, hmn, ih]

theorem mergeStep_lookupName (acc : Fields) (p : String × Field) (m : String) :
    lookupName (Fields.mergeStep acc p) m =
      if p.1 = m then
        match lookupName acc p.1 with
        | some currentField => some (currentField.Merge p.2)
        | none => some p.2
      else lookupName acc m := by
  unfold Fields.mergeStep
  cases hl : lookupName acc p.1 with
  | some currentField =>
      rw [lookupName_mapUpdate]
      by_cases hm : p.1 = m
      · subst hm; simp [hl]
      · simp [hm]
  | none =>
      rw [lookupName_append]
      by_cases hm : p.1 = m
      · subst hm; simp [lookupName, hl]
      · simp [lookupName, hm]

theorem merge_lookupName (other : Fields) (hn : (keysOf other).Nodup) :
    ∀ (f : Fields) (m : String),
      lookupName (Fields.Merge f other) m =
        match lookupName f m, lookupName other m with
        | some currentField, some otherField => some (currentField.Merge otherField)
        | some currentField, none => some currentField
        | none, some otherField => some otherField
        | none, none => none := by
  induction other with
  | nil =>
      intro f m
      cases hf : lookupName f m <;> simp [Fields.Merge, lookupName, hf]
  | cons p rest ih =>
      intro f m
      simp only [keysOf, List.map_cons, List.nodup_cons] at hn
      have hrn : (keysOf rest).Nodup := hn.2
      have hstep : Fields.Merge f (p :: rest) = Fields.Merge (Fields.mergeStep f p) rest := rfl
      rw [hstep, ih hrn]
      by_cases hm : p.1 = m
      · have hrest : lookupName rest m = none :=
          lookupName_eq_none_of_not_mem rest m (by rw [← hm]; exact hn.1)
        rw [mergeStep_lookupName]
        simp only [hm, if_pos, hrest, lookupName]
        cases hf : lookupName f m <;> simp [lookupName, hm, hf, ← hm]
      · rw [mergeStep_lookupName]
        simp only [hm, if_neg, lookupName]
        cases hf : lookupName f m <;> simp [hm, hf]

theorem addStep_lookupName (acc : Fields) (p : String × Field) (m : String) :
    lookupName (Fields.addStep acc p) m =
      (lookupName acc m).or (if p.1 = m then some p.2 else none) := by
  unfold Fields.addStep
  cases hl : lookupName acc p.1 with
  | some currentField =>
      by_cases hm : p.1 = m
      · subst hm; simp [hl]
      · simp [hm]
  | none =>
      rw [lookupName_append]
      by_cases hm : p.1 = m <;> simp [lookupName, hm]

theorem add_lookupName (other : Fields) :
    ∀ (f : Fields) (m : String),
      lookupName (Fields.Add f other) m = (lookupName f m).or (lookupName other m) := by
  induction other with
  | nil => intro f m; simp [Fields.Add, lookupName]
  | cons p rest ih =>
      intro f m
      have hstep : Fields.Add f (p :: rest) = Fields.Add (Fields.addStep f p) rest := rfl
      rw [hstep, ih, addStep_lookupName, Option.or_assoc]
      by_cases hm : p.1 = m <;> simp [lookupName, hm]

theorem clone_lookupName (f : Fields) (m : String) :
    lookupName (Fields.Clone f) m =
      (lookupName f m).map fun fld =>
        { dataType := fld.dataType, typeOccurrence := fld.typeOccurrence } := by
  induction f with
  | nil => rfl
  | cons p rest ih =>
      by_cases hm : p.1 = m <;> simp [Fields.Clone, lookupName, hm] <;>
        simpa [Fields.Clone] using ih

/-! ## Lemmas about `Field` -/

theorem merge_typeOccurrence (f g : Field) :
    (Field.Merge f g).typeOccurrence = f.typeOccurrence ∪ g.typeOccurrence := by
  unfold Field.Merge
  by_cases h : g.typeOccurrence ⊆ f.typeOccurrence
  · simp [h, Finset.union_eq_left.mpr h]
  · simp [h]

theorem merge_sqlTypeSuggestion (f g : Field) :
    (Field.Merge f g).sqlTypeSuggestion = f.sqlTypeSuggestion := by
  unfold Field.Merge
  by_cases h : g.typeOccurrence ⊆ f.typeOccurrence <;> simp [h]

theorem getType_eq_joinFinset (f : Field) (h : f.CacheWF) :
    f.GetType = joinFinset f.typeOccurrence := by
  unfold Field.GetType
  cases hd : f.dataType with
  | none => rfl
  | some t => exact h t hd

theorem merge_getType (f g : Field) (hf : f.CacheWF) (hg : g.CacheWF) :
    (Field.Merge f g).GetType = GetCommonAncestorType f.GetType g.GetType := by
  rw [getType_eq_joinFinset f hf, getType_eq_joinFinset g hg, ← joinFinset_union]
  unfold Field.Merge
  by_cases h : g.typeOccurrence ⊆ f.typeOccurrence
  · simp only [h, if_pos]
    rw [Finset.union_eq_left.mpr h, getType_eq_joinFinset f hf]
  · simp only [h, if_neg, not_false_iff]
    rfl

theorem merge_cacheWF (f g : Field) (hf : f.CacheWF) : (Field.Merge f g).CacheWF := by
  unfold Field.Merge
  by_cases h : g.typeOccurrence ⊆ f.typeOccurrence
  · simpa [h] using hf
  · intro t ht
    simp [h] at ht

theorem newField_cacheWF (t : DataType) : (NewField t).CacheWF := by
  intro u hu
  simp only [NewField] at hu ⊢
  cases hu
  simp [joinFinset, Finset.fold_singleton, join_unknown_right]

/-! ## `Table` and `Table.Diff` (src/types/table.go) -/

/-- Go `Columns map[string]SQLColumn` as an association list. -/
abbrev Columns := List (String × SQLColumn)

/-- Modelled from the spec: `DatePartition` ("a date-bucket identifier") is
declared outside the given excerpt and carries no logic used by any claim. -/
structure DatePartition where
  value : String := ""
deriving DecidableEq, Repr

/-- `Table` is a dto for DWH table representation.  `PKFields utils.Set`
(a `map[string]bool` used as a set of field names, declared outside the
excerpt) is modelled as `Finset String`; its `Equals` is unordered set
equality, i.e. `Finset` equality. -/
structure Table where
  Schema : String := ""
  Name : String := ""
  Columns : Columns := []
  PKFields : Finset String := ∅
  PrimaryKeyName : String := ""
  Partition : DatePartition := {}
  DeletePkFields : Bool := false
deriving DecidableEq

/-- `Table.Exists` returns true if there is at least one column (Go receiver is
a possibly-nil pointer, hence `Option Table`; nil yields false). -/
def Table.ExistsB : Option Table → Bool
  | none => false
  | some t => decide (0 < t.Columns.length) || decide (0 < t.PKFields.card) || t.DeletePkFields

/-- `BuildConstraintName` concatenates schema, table and `"_pk"`. -/
def BuildConstraintName (schemaName tableName : String) : String :=
  schemaName ++ "_" ++ tableName ++ "_pk"

/-- `Table.Diff` calculates the diff between the current schema `t` and
`another` (the desired one); `another` may be nil.  Mirrors the source:
empty-diff early return when `another` does not exist; additive column set;
PK reconciliation guarded by the Jitsu-managed constraint name. -/
def Table.Diff (t : Table) (another : Option Table) : Table :=
  let diff : Table := { Schema := t.Schema, Name := t.Name, Columns := [], PKFields := ∅ }
  if ¬ Table.ExistsB another then diff
  else
    match another with
    | none => diff
    | some a =>
      let diffColumns := a.Columns.filter fun p => (lookupName t.Columns p.1) = none
      let diff1 : Table := { diff with Columns := diffColumns }
      let jitsuPrimaryKeyName := BuildConstraintName t.Schema t.Name
      if t.PrimaryKeyName ≠ "" ∧ t.PrimaryKeyName ≠ jitsuPrimaryKeyName then
        diff1
      else if 0 < t.PKFields.card then
        if t.PKFields ≠ a.PKFields then
          { diff1 with DeletePkFields := true, PKFields := a.PKFields,
                       PrimaryKeyName := jitsuPrimaryKeyName }
        else diff1
      else if 0 < a.PKFields.card then
        { diff1 with PKFields := a.PKFields, PrimaryKeyName := jitsuPrimaryKeyName }
      else diff1

/-! ## Mixpanel API-based bulker (src/bulkerlib/implementations/api_based/mixpanel.go) -/

def MixpanelBulkerTypeId : String := "mixpanel"

def MixpanelUnsupported : String := "Only 'batch' mode is supported"

/-- Go `BulkMode` is a string-typed enumeration declared outside the excerpt. -/
abbrev BulkMode := String

/-- Modelled from the spec: the four bulk-load mode constants (spec §4.6); the
excerpt only switches on them, so all that matters here is that they are four
distinct values of the string-typed `BulkMode`. -/
def BulkMode.Stream : BulkMode := "stream"

/-- Modelled from the spec: see `BulkMode.Stream`. -/
def BulkMode.Batch : BulkMode := "batch"

/-- Modelled from the spec: see `BulkMode.Stream`. -/
def BulkMode.ReplaceTable : BulkMode := "replace_table"

/-- Modelled from the spec: see `BulkMode.Stream`. -/
def BulkMode.ReplacePartition : BulkMode := "replace_partition"

/-- `MixpanelBulker.CreateStream`: a Go `switch` on the mode.  Only `Batch`
yields a stream — it delegates to `NewTransactionalStream` (not part of the
excerpt), modelled as `.ok ()`; every other recognized mode returns
`errors.New(MixpanelUnsupported)` and the default branch returns the
formatted unsupported-mode error. -/
def MixpanelCreateStream (mode : BulkMode) : Except String Unit :=
  if mode = BulkMode.Stream then .error MixpanelUnsupported
  else if mode = BulkMode.Batch then .ok ()
  else if mode = BulkMode.ReplaceTable then .error MixpanelUnsupported
  else if mode = BulkMode.ReplacePartition then .error MixpanelUnsupported
  else .error ("unsupported bulk mode: " ++ mode)

/-- One attempt's observable outcome: `httpClient.Do` fails (transport error)
or yields a response with a status code and body. -/
inductive HttpOutcome where
  | transportError
  | response (status : Nat) (body : String)
deriving DecidableEq, Repr

/-- The fixed backoff schedule (`var retryDelaysMs = [5]int{100, 200, 200, 500, 0}`). -/
def retryDelaysMs : List Nat := [100, 200, 200, 500, 0]

/-- The partial-validation-failure marker checked by `strings.Contains`. -/
def validationMarker : String := "some data points in the request failed validation"

/-- `strings.Contains(respBody, validationMarker)`. -/
def containsMarker (body : String) : Bool :=
  decide (validationMarker.toList <:+: body.toList)

/-- The Go named results `(statusCode, respBody, err)` of `Upload`, plus the
number of loop iterations that ran (how many attempts were made). -/
structure UploadResult where
  statusCode : Nat := 0
  respBody : String := ""
  isErr : Bool := false
  attempts : Nat := 0
deriving DecidableEq, Repr

/-- The retry loop of `MixpanelBulker.Upload`: one iteration per entry of
`retryDelaysMs`; `responses i` is the outcome of the i-th attempt.  Transport
errors set `(0, "", err)` and continue; 200 returns success; 400 returns
success when the body holds the validation marker, else a terminal error;
500/502/503 record the error and continue; anything else is terminal.  When
the schedule is exhausted the last recorded values are returned. -/
def uploadLoop (responses : Nat → HttpOutcome) :
    List Nat → Nat → Nat → String → Bool → UploadResult
  | [], attempt, sc, body, e =>
      { statusCode := sc, respBody := body, isErr := e, attempts := attempt }
  | _ :: rest, attempt, _, _, _ =>
    match responses attempt with
    | .transportError => uploadLoop responses rest (attempt + 1) 0 "" true
    | .response st rb =>
      if st = 200 then
        { statusCode := st, respBody := rb, isErr := false, attempts := attempt + 1 }
      else if st = 400 then
        if containsMarker rb then
          { statusCode := st, respBody := rb, isErr := false, attempts := attempt + 1 }
        else
          { statusCode := st, respBody := rb, isErr := true, attempts := attempt + 1 }
      else if st = 500 ∨ st = 502 ∨ st = 503 then
        uploadLoop responses rest (attempt + 1) st rb true
      else
        { statusCode := st, respBody := rb, isErr := true, attempts := attempt + 1 }

/-- `MixpanelBulker.Upload` after the request body has been read. -/
def MixpanelUpload (responses : Nat → HttpOutcome) : UploadResult :=
  uploadLoop responses retryDelaysMs 0 0 "" false

/-- An outcome the loop retries on: a transport error or a 500/502/503. -/
def retryable : HttpOutcome → Bool
  | .transportError => true
  | .response st _ => decide (st = 500 ∨ st = 502 ∨ st = 503)

/-! ## Reference-cell model of occurrence maps (clone independence)

The pure model above erases Go's sharing of `typeOccurrence` maps.  To state
that `Fields.Clone` produces maps with NO shared mutable state, this second
model makes the occurrence maps heap cells: a `FieldH` holds the address of
its occurrence set in an `OccStore`, `CloneH` allocates a fresh cell per field
(the Go `clonedTypeOccurence := map[DataType]bool{}` plus copy loop), and
mutation is an explicit store write.  The `dataType` pointer is copied by the
Go clone, but no code writes through it (only rebinding occurs), so it stays
a value here. -/

structure FieldH where
  dataType : Option DataType := none
  occRef : Nat := 0
deriving DecidableEq, Repr

abbrev FieldsH := List (String × FieldH)

/-- Address-keyed lookup in the heap of occurrence sets. -/
def lookupRef : List (Nat × Finset DataType) → Nat → Option (Finset DataType)
  | [], _ => none
  | p :: rest, r => if p.1 = r then some p.2 else lookupRef rest r

/-- The store of occurrence-set cells; `next` is the next fresh address. -/
structure OccStore where
  heap : List (Nat × Finset DataType) := []
  next : Nat := 0

/-- Read the occurrence set at address `r` (absent cell reads as empty). -/
def OccStore.read (st : OccStore) (r : Nat) : Finset DataType :=
  (lookupRef st.heap r).getD ∅

/-- Overwrite the occurrence set at address `r` — this subsumes adding or
removing any occurrence kinds of that cell. -/
def OccStore.write (st : OccStore) (r : Nat) (s : Finset DataType) : OccStore :=
  { st with heap := (r, s) :: st.heap }

/-- Allocate a fresh cell holding `s`. -/
def OccStore.alloc (st : OccStore) (s : Finset DataType) : Nat × OccStore :=
  (st.next, { heap := (st.next, s) :: st.heap, next := st.next + 1 })

/-- `Fields.Clone` in the reference-cell model: for every field, a new
occurrence map (fresh cell) holding a copy of the source's contents, and a
`Field` value carrying the copied cached type and the new map. -/
def FieldsH.CloneH : FieldsH → OccStore → FieldsH × OccStore
  | [], st => ([], st)
  | p :: rest, st =>
      let a := st.alloc (st.read p.2.occRef)
      let r := FieldsH.CloneH rest a.2
      ((p.1, { dataType := p.2.dataType, occRef := a.1 }) :: r.1, r.2)

/-- `Field.GetType` in the reference-cell model. -/
def FieldH.GetTypeH (st : OccStore) (f : FieldH) : DataType :=
  match f.dataType with
  | some t => t
  | none => joinFinset (st.read f.occRef)

/-- Well-formed `FieldsH`: every occurrence cell is an allocated address. -/
def FieldsH.WF (f : FieldsH) (st : OccStore) : Prop :=
  ∀ p ∈ f, p.2.occRef < st.next

/-! ## Lemmas about the reference-cell model -/

theorem read_write_self (st : OccStore) (r : Nat) (s : Finset DataType) :
    (st.write r s).read r = s := by
  simp [OccStore.write, OccStore.read, lookupRef]

theorem read_write_ne (st : OccStore) (r r2 : Nat) (s : Finset DataType) (h : r ≠ r2) :
    (st.write r s).read r2 = st.read r2 := by
  simp [OccStore.write, OccStore.read, lookupRef, h]

theorem read_alloc_lt (st : OccStore) (s : Finset DataType) (r : Nat) (h : r < st.next) :
    (st.alloc s).2.read r = st.read r := by
  simp [OccStore.alloc, OccStore.read, lookupRef, Nat.ne_of_gt h]

theorem cloneH_next_le (f : FieldsH) (st : OccStore) :
    st.next ≤ (FieldsH.CloneH f st).2.next := by
  induction f generalizing st with
  | nil => exact Nat.le_refl _
  | cons p rest ih =>
      have h := ih ((st.alloc (st.read p.2.occRef)).2)
      simp only [OccStore.alloc] at h
      exact Nat.le_trans (Nat.le_succ _) h

theorem cloneH_read_lt (f : FieldsH) (st : OccStore) (r : Nat) (h : r < st.next) :
    (FieldsH.CloneH f st).2.read r = st.read r := by
  induction f generalizing st with
  | nil => rfl
  | cons p rest ih =>
      have hs : r < (st.alloc (st.read p.2.occRef)).2.next := by
        simp only [OccStore.alloc]
        exact Nat.lt_succ_of_lt h
      calc (FieldsH.CloneH (p :: rest) st).2.read r
          = (FieldsH.CloneH rest (st.alloc (st.read p.2.occRef)).2).2.read r := rfl
        _ = (st.alloc (st.read p.2.occRef)).2.read r := ih _ hs
        _ = st.read r := read_alloc_lt st _ r h

theorem cloneH_refs (f : FieldsH) (st : OccStore) :
    ∀ q ∈ (FieldsH.CloneH f st).1,
      st.next ≤ q.2.occRef ∧ q.2.occRef < (FieldsH.CloneH f st).2.next := by
  induction f generalizing st with
  | nil => intro q hq; cases hq
  | cons p rest ih =>
      intro q hq
      have hnext := cloneH_next_le rest ((st.alloc (st.read p.2.occRef)).2)
      simp only [OccStore.alloc] at hnext
      rcases (List.mem_cons).mp hq with hq | hq
      · subst hq
        exact ⟨Nat.le_refl _, Nat.lt_of_lt_of_le (Nat.lt_succ_self _) hnext⟩
      · have := ih ((st.alloc (st.read p.2.occRef)).2) q hq
        simp only [OccStore.alloc] at this
        exact ⟨Nat.le_trans (Nat.le_succ _) this.1, this.2⟩

theorem cloneH_length (f : FieldsH) (st : OccStore) :
    (FieldsH.CloneH f st).1.length = f.length := by
  induction f generalizing st with
  | nil => rfl
  | cons p rest ih => simpa [FieldsH.CloneH] using ih _

theorem cloneH_entry (f : FieldsH) (st : OccStore) (hwf : FieldsH.WF f st) :
    ∀ (i : Nat) (hi : i < f.length) (hc : i < (FieldsH.CloneH f st).1.length),
      ((FieldsH.CloneH f st).1.get ⟨i, hc⟩).1 = (f.get ⟨i, hi⟩).1 ∧
      ((FieldsH.CloneH f st).1.get ⟨i, hc⟩).2.dataType = (f.get ⟨i, hi⟩).2.dataType ∧
      (FieldsH.CloneH f st).2.read ((FieldsH.CloneH f st).1.get ⟨i, hc⟩).2.occRef =
        st.read ((f.get ⟨i, hi⟩).2.occRef) := by
  induction f generalizing st with
  | nil => intro i hi; cases hi
  | cons p rest ih =>
      intro i hi hc
      have hwfr : FieldsH.WF rest ((st.alloc (st.read p.2.occRef)).2) := by
        intro q hq
        simp only [OccStore.alloc]
        exact Nat.lt_succ_of_lt (hwf q (List.mem_cons_of_mem p hq))
      cases i with
      | zero =>
          refine ⟨rfl, rfl, ?_⟩
          have hlt : st.next < (st.alloc (st.read p.2.occRef)).2.next := by
            simp [OccStore.alloc]
          calc (FieldsH.CloneH (p :: rest) st).2.read st.next
              = (st.alloc (st.read p.2.occRef)).2.read st.next :=
                cloneH_read_lt rest _ st.next hlt
            _ = st.read p.2.occRef := by simp [OccStore.alloc, OccStore.read, lookupRef]
      | succ i =>
          have hi2 : i < rest.length := Nat.lt_of_succ_lt_succ hi
          have hc2 : i < (FieldsH.CloneH rest ((st.alloc (st.read p.2.occRef)).2)).1.length := by
            rw [cloneH_length]; exact hi2
          have h := ih ((st.alloc (st.read p.2.occRef)).2) hwfr i hi2 hc2
          refine ⟨h.1, h.2.1, ?_⟩
          have hlt : (rest.get ⟨i, hi2⟩).2.occRef < st.next :=
            hwf _ (List.mem_cons_of_mem p (rest.get_mem i hi2))
          calc (FieldsH.CloneH (p :: rest) st).2.read
                ((FieldsH.CloneH (p :: rest) st).1.get ⟨i + 1, hc⟩).2.occRef
              = (FieldsH.CloneH rest ((st.alloc (st.read p.2.occRef)).2)).2.read
                ((FieldsH.CloneH rest ((st.alloc (st.read p.2.occRef)).2)).1.get
                  ⟨i, hc2⟩).2.occRef := rfl
            _ = ((st.alloc (st.read p.2.occRef)).2).read ((rest.get ⟨i, hi2⟩).2.occRef) := h.2.2
            _ = st.read ((rest.get ⟨i, hi2⟩).2.occRef) := read_alloc_lt st _ _ hlt

theorem getTypeH_congr (st1 st2 : OccStore) (f : FieldH)
    (h : st1.read f.occRef = st2.read f.occRef) :
    FieldH.GetTypeH st1 f = FieldH.GetTypeH st2 f := by
  unfold FieldH.GetTypeH
  cases f.dataType with
  | some t => rfl
  | none => rw [h]

/-! ## Lemmas about `Table.Diff` -/

theorem lookupName_filter_key {α : Type _} (l : List (String × α)) (pred : String → Bool)
    (name : String) :
    lookupName (l.filter fun p => pred p.1) name =
      if pred name then lookupName l name else none := by
  induction l with
  | nil => simp [lookupName]
  | cons q rest ih =>
      by_cases hq : q.1 = name
      · subst hq
        by_cases hp : pred q.1 <;> simp [lookupName, hp, ih]
      · by_cases hp : pred q.1 <;> simp [lookupName, hp, hq, ih]

/-- The diff's column filter at one name: a desired column survives exactly
when the current table lacks that name. -/
theorem lookupName_filter_absent (cols tcols : Columns) (name : String) :
    lookupName (cols.filter fun p => decide (lookupName tcols p.1 = none)) name =
      if lookupName tcols name = none then lookupName cols name else none := by
  have h := lookupName_filter_key cols (fun s => decide (lookupName tcols s = none)) name
  by_cases ht : lookupName tcols name = none <;> simpa [ht] using h

theorem existsB_false_columns (a : Table) (h : Table.ExistsB (some a) = false) :
    a.Columns = [] := by
  simp only [Table.ExistsB, Bool.or_eq_false_iff, decide_eq_false_iff_not, Nat.not_lt,
    Nat.le_zero] at h
  exact List.length_eq_zero.mp h.1.1

theorem existsB_false_pk (a : Table) (h : Table.ExistsB (some a) = false) :
    a.PKFields = ∅ := by
  simp only [Table.ExistsB, Bool.or_eq_false_iff, decide_eq_false_iff_not, Nat.not_lt,
    Nat.le_zero] at h
  exact Finset.card_eq_zero.mp h.1.2

/-- Whatever the PK branches do, the diff's column set is the additive filter
(or empty on the early return). -/
theorem diff_columns (t : Table) (another : Option Table) :
    (Table.Diff t another).Columns =
      if Table.ExistsB another then
        match another with
        | none => []
        | some a => a.Columns.filter fun p => (lookupName t.Columns p.1) = none
      else [] := by
  unfold Table.Diff
  by_cases h : Table.ExistsB another
  · cases another with
    | none => simp [Table.ExistsB] at h
    | some a =>
        simp only [h, not_true, ite_true, ite_false, Bool.not_true, if_neg, if_pos,
          not_false_iff]
        split_ifs <;> rfl
  · simp [h]

/-- The diff's PK data in normal form: exactly the source's branch structure. -/
theorem diff_pk_cases (t a : Table) (hex : Table.ExistsB (some a) = true) :
    ((Table.Diff t (some a)).PKFields,
     (Table.Diff t (some a)).DeletePkFields,
     (Table.Diff t (some a)).PrimaryKeyName) =
      if t.PrimaryKeyName ≠ "" ∧ t.PrimaryKeyName ≠ BuildConstraintName t.Schema t.Name then
        (∅, false, "")
      else if 0 < t.PKFields.card then
        if t.PKFields ≠ a.PKFields then
          (a.PKFields, true, BuildConstraintName t.Schema t.Name)
        else (∅, false, "")
      else if 0 < a.PKFields.card then
        (a.PKFields, false, BuildConstraintName t.Schema t.Name)
      else (∅, false, "") := by
  unfold Table.Diff
  simp only [hex, not_true, ite_true, ite_false, Bool.not_true, if_neg, if_pos,
    not_false_iff]
  split_ifs <;> rfl

/-- The early-return case: a non-existent desired table yields the empty diff. -/
theorem diff_not_exists (t : Table) (another : Option Table)
    (h : Table.ExistsB another = false) :
    Table.Diff t another =
      { Schema := t.Schema, Name := t.Name, Columns := [], PKFields := ∅ } := by
  unfold Table.Diff
  simp [h]

/-! ## Lemmas about the upload retry loop -/

theorem uploadLoop_all_retryable (responses : Nat → HttpOutcome) :
    ∀ (delays : List Nat) (attempt sc : Nat) (body : String) (e : Bool),
      (∀ i, attempt ≤ i → i < attempt + delays.length → retryable (responses i) = true) →
      (uploadLoop responses delays attempt sc body e).attempts = attempt + delays.length ∧
      (uploadLoop responses delays attempt sc body e).isErr =
        (if delays.length = 0 then e else true) := by
  intro delays
  induction delays with
  | nil => intro attempt sc body e _; exact ⟨rfl, rfl⟩
  | cons d rest ih =>
      intro attempt sc body e hall
      have h0 : retryable (responses attempt) = true :=
        hall attempt (Nat.le_refl _) (by simp)
      have hall2 : ∀ i, attempt + 1 ≤ i → i < attempt + 1 + rest.length →
          retryable (responses i) = true := by
        intro i h1 h2
        exact hall i (by omega) (by simp only [List.length_cons]; omega)
      cases hr : responses attempt with
      | transportError =>
          have h := ih (attempt + 1) 0 "" true hall2
          simp only [uploadLoop, hr]
          refine ⟨by rw [h.1]; simp only [List.length_cons]; omega, ?_⟩
          rw [h.2]
          simp
      | response st rb =>
          rw [hr] at h0
          simp only [retryable, decide_eq_true_eq] at h0
          have h200 : ¬ st = 200 := by omega
          have h400 : ¬ st = 400 := by omega
          have h := ih (attempt + 1) st rb true hall2
          simp only [uploadLoop, hr, h200, h400, h0, ite_false, ite_true, if_neg, if_pos,
            not_false_iff]
          refine ⟨by rw [h.1]; simp only [List.length_cons]; omega, ?_⟩
          rw [h.2]
          simp

theorem uploadLoop_stops (responses : Nat → HttpOutcome) :
    ∀ (delays : List Nat) (k attempt sc : Nat) (body : String) (e : Bool)
      (st : Nat) (rb : String),
      k < delays.length →
      (∀ i, i < k → retryable (responses (attempt + i)) = true) →
      responses (attempt + k) = .response st rb →
      retryable (.response st rb) = false →
      (uploadLoop responses delays attempt sc body e).statusCode = st ∧
      (uploadLoop responses delays attempt sc body e).respBody = rb ∧
      (uploadLoop responses delays attempt sc body e).attempts = attempt + k + 1 ∧
      ((uploadLoop responses delays attempt sc body e).isErr = false ↔
        (st = 200 ∨ (st = 400 ∧ containsMarker rb = true))) := by
  intro delays
  induction delays with
  | nil => intro k attempt sc body e st rb hk; simp at hk
  | cons d rest ih =>
      intro k attempt sc body e st rb hk hall hr hnr
      simp only [retryable, decide_eq_true_eq, decide_eq_false_iff_not] at hnr
      cases k with
      | zero =>
          rw [Nat.add_zero] at hr
          by_cases h200 : st = 200
          · simp only [uploadLoop, hr, h200, ite_true, if_pos]
            subst h200
            simp
          · by_cases h400 : st = 400
            · subst h400
              by_cases hm : containsMarker rb
              · simp only [uploadLoop, hr, h200, ite_false, ite_true, if_neg, if_pos,
                  not_false_iff, hm]
                simp [hm]
              · simp only [uploadLoop, hr, h200, ite_false, ite_true, if_neg, if_pos,
                  not_false_iff, hm]
                simp [hm, h200]
            · simp only [uploadLoop, hr, h200, h400, hnr, ite_false, if_neg, not_false_iff]
              simp [h200, h400]
      | succ k =>
          have h0 : retryable (responses attempt) = true := by
            have := hall 0 (Nat.succ_pos _)
            rwa [Nat.add_zero] at this
          have hall2 : ∀ i, i < k → retryable (responses (attempt + 1 + i)) = true := by
            intro i hi
            have := hall (i + 1) (by omega)
            rwa [show attempt + (i + 1) = attempt + 1 + i by omega] at this
          have hr2 : responses (attempt + 1 + k) = .response st rb := by
            rwa [show attempt + 1 + k = attempt + (k + 1) by omega]
          have hk2 : k < rest.length := by
            simp only [List.length_cons] at hk; omega
          cases hr0 : responses attempt with
          | transportError =>
              have h := ih k (attempt + 1) 0 "" true st rb hk2 hall2 hr2
                (by simp [retryable, hnr])
              simp only [uploadLoop, hr0]
              exact ⟨h.1, h.2.1, by rw [h.2.2.1]; omega, h.2.2.2⟩
          | response st0 rb0 =>
              rw [hr0] at h0
              simp only [retryable, decide_eq_true_eq] at h0
              have h200 : ¬ st0 = 200 := by omega
              have h400 : ¬ st0 = 400 := by omega
              have h := ih k (attempt + 1) st0 rb0 true st rb hk2 hall2 hr2
                (by simp [retryable, hnr])
              simp only [uploadLoop, hr0, h200, h400, h0, ite_false, ite_true, if_neg,
                if_pos, not_false_iff]
              exact ⟨h.1, h.2.1, by rw [h.2.2.1]; omega, h.2.2.2⟩

/-! ## The claims -/

/-- C4: the lattice join is commutative, associative, idempotent and absorbed
by `STRING`; consequently folding any non-empty occurrence set by repeated
pairwise join yields the same result in any order (any two enumerations of the
same set fold to the same type), so `Field.GetType`'s fold over map iteration
order is deterministic. -/
theorem C4_lattice_laws :
    (∀ a b : DataType, GetCommonAncestorType a b = GetCommonAncestorType b a) ∧
    (∀ a b c : DataType, GetCommonAncestorType a (GetCommonAncestorType b c) =
      GetCommonAncestorType (GetCommonAncestorType a b) c) ∧
    (∀ a : DataType, GetCommonAncestorType a a = a) ∧
    (∀ a : DataType, GetCommonAncestorType a DataType.STRING = DataType.STRING) ∧
    (∀ l1 l2 : List DataType, l1.toFinset = l2.toFinset → joinList l1 = joinList l2) ∧
    (∀ (f : Field) (l : List DataType), f.dataType = none →
      l.toFinset = f.typeOccurrence → f.GetType = joinList l) := by
  refine ⟨by decide, by decide, by decide, by decide, ?_, ?_⟩
  · intro l1 l2 h
    rw [joinList_eq_joinFinset, joinList_eq_joinFinset, h]
  · intro f l hd hl
    rw [joinList_eq_joinFinset, hl]
    simp [Field.GetType, hd]

/-- C4 witness: a concrete order-independence instance, via the theorem. -/
theorem C4_lattice_laws_witness :
    joinList [DataType.INT64, DataType.STRING, DataType.BOOL] =
      joinList [DataType.BOOL, DataType.INT64, DataType.STRING] :=
  C4_lattice_laws.2.2.2.2.1 _ _ (by decide)

/-- C5 (the code at the failing input): on a `Field` with an unset cache and
occurrences `{BOOL, STRING}`, `GetType` returns the lattice join `STRING`, the
receiver COPY ends with the join cached — but the caller's field after the
call still has `dataType = none`, because the Go method takes its receiver by
value and the cache write is discarded.  The claimed memoization side effect
never reaches the caller's `Field`. -/
theorem C5_cache_never_persists :
    (Field.GetTypeCall (Field.mk none none {BOOL, STRING})).1 = DataType.STRING ∧
    (Field.GetTypeReceiverCopy (Field.mk none none {BOOL, STRING})).dataType =
      some DataType.STRING ∧
    (Field.GetTypeCall (Field.mk none none {BOOL, STRING})).2.dataType = none := by
  exact ⟨by decide, by decide, rfl⟩

/-- C3: after `Fields.Merge f g`, every name shared by `f` and `g` maps to the
`Field.Merge` of the two entries — whose occurrence set includes the union of
the pre-merge set and `g`'s set, and whose resolved type is the lattice join
of the two pre-merge resolved types (given the cache invariant both sides
maintain); names present only in `g` are copied in wholesale.  (`g` itself is
untouched: the embedding of `Fields.Merge` only reads `g`, matching the Go
code, which writes only through `f`.) -/
theorem C3_fields_merge (f g : Fields) (hg : (keysOf g).Nodup) (name : String) :
    (∀ cf gf, lookupName f name = some cf → lookupName g name = some gf →
      lookupName (Fields.Merge f g) name = some (cf.Merge gf) ∧
      cf.typeOccurrence ∪ gf.typeOccurrence ⊆ (cf.Merge gf).typeOccurrence ∧
      (cf.CacheWF → gf.CacheWF →
        (cf.Merge gf).GetType = GetCommonAncestorType cf.GetType gf.GetType)) ∧
    (∀ gf, lookupName f name = none → lookupName g name = some gf →
      lookupName (Fields.Merge f g) name = some gf) := by
  constructor
  · intro cf gf hf hgl
    refine ⟨?_, ?_, ?_⟩
    · rw [merge_lookupName g hg f name, hf, hgl]
    · rw [merge_typeOccurrence]
    · intro hcf hgf
      exact merge_getType cf gf hcf hgf
  · intro gf hf hgl
    rw [merge_lookupName g hg f name, hf, hgl]

/-- C3 witness: merging `{a ↦ INT64}` with `{a ↦ STRING, b ↦ BOOL}` at the
shared name `a` and the `g`-only name `b`, via the theorem. -/
theorem C3_fields_merge_witness :
    lookupName (Fields.Merge [("a", NewField DataType.INT64)]
        [("a", NewField DataType.STRING), ("b", NewField DataType.BOOL)]) "a" =
      some ((NewField DataType.INT64).Merge (NewField DataType.STRING)) ∧
    ((NewField DataType.INT64).Merge (NewField DataType.STRING)).GetType =
      GetCommonAncestorType (NewField DataType.INT64).GetType
        (NewField DataType.STRING).GetType ∧
    lookupName (Fields.Merge [("a", NewField DataType.INT64)]
        [("a", NewField DataType.STRING), ("b", NewField DataType.BOOL)]) "b" =
      some (NewField DataType.BOOL) := by
  have h := C3_fields_merge [("a", NewField DataType.INT64)]
    [("a", NewField DataType.STRING), ("b", NewField DataType.BOOL)] (by decide) "a"
  have hb := C3_fields_merge [("a", NewField DataType.INT64)]
    [("a", NewField DataType.STRING), ("b", NewField DataType.BOOL)] (by decide) "b"
  have h1 := h.1 (NewField DataType.INT64) (NewField DataType.STRING) rfl rfl
  exact ⟨h1.1, h1.2.2 (newField_cacheWF _) (newField_cacheWF _),
    hb.2 (NewField DataType.BOOL) rfl rfl⟩

/-- C6: on a name present in both `Fields` whose entries have differing
resolved types, `Fields.Add` leaves the original entry completely untouched
(same `Field` value, hence same occurrence set and resolved type) and only
inserts names absent from the original, while `Fields.Merge` widens the shared
entry so its resolved type is the lattice join of both. -/
theorem C6_add_vs_merge (f g : Fields) (hg : (keysOf g).Nodup) (name : String)
    (cf gf : Field) (hf : lookupName f name = some cf)
    (hgl : lookupName g name = some gf) (hdiff : cf.GetType ≠ gf.GetType)
    (hcf : cf.CacheWF) (hgf : gf.CacheWF) :
    lookupName (Fields.Add f g) name = some cf ∧
    (∀ m c, lookupName f m = some c → lookupName (Fields.Add f g) m = some c) ∧
    (∀ m, lookupName f m = none → lookupName (Fields.Add f g) m = lookupName g m) ∧
    lookupName (Fields.Merge f g) name = some (cf.Merge gf) ∧
    (cf.Merge gf).GetType = GetCommonAncestorType cf.GetType gf.GetType := by
  refine ⟨?_, ?_, ?_, ?_, merge_getType cf gf hcf hgf⟩
  · rw [add_lookupName g f name, hf]; rfl
  · intro m c hc
    rw [add_lookupName g f m, hc]; rfl
  · intro m hm
    rw [add_lookupName g f m, hm]
    rfl
  · rw [merge_lookupName g hg f name, hf, hgl]

/-- C6 witness: `{a ↦ BOOL}` against `{a ↦ TIMESTAMP}`: `Add` keeps the `BOOL`
entry; `Merge` widens `a` to the join `STRING`. -/
theorem C6_add_vs_merge_witness :
    lookupName (Fields.Add [("a", NewField DataType.BOOL)]
      [("a", NewField DataType.TIMESTAMP)]) "a" = some (NewField DataType.BOOL) ∧
    lookupName (Fields.Merge [("a", NewField DataType.BOOL)]
        [("a", NewField DataType.TIMESTAMP)]) "a" =
      some ((NewField DataType.BOOL).Merge (NewField DataType.TIMESTAMP)) ∧
    ((NewField DataType.BOOL).Merge (NewField DataType.TIMESTAMP)).GetType =
      DataType.STRING := by
  have h := C6_add_vs_merge [("a", NewField DataType.BOOL)]
    [("a", NewField DataType.TIMESTAMP)] (by decide) "a"
    (NewField DataType.BOOL) (NewField DataType.TIMESTAMP) rfl rfl (by decide)
    (newField_cacheWF _) (newField_cacheWF _)
  refine ⟨h.1, h.2.2.2.1, ?_⟩
  rw [h.2.2.2.2]
  decide

/-- C10: `Fields.Clone` does not preserve SQL type suggestions: a cloned entry
always has `sqlTypeSuggestion = nil`, so `GetSuggestedSQLType` on it returns
the empty column and `false` for every destination identifier, even when the
original entry carries a suggestion. -/
theorem C10_clone_drops_suggestions (f : Fields) (name : String) (fld : Field)
    (hl : lookupName f name = some fld)
    (hs : fld.sqlTypeSuggestion.isSome = true) :
    ∃ cfld, lookupName (Fields.Clone f) name = some cfld ∧
      cfld.sqlTypeSuggestion = none ∧
      ∀ destinationType, cfld.GetSuggestedSQLType destinationType = ({}, false) := by
  refine ⟨{ dataType := fld.dataType, typeOccurrence := fld.typeOccurrence }, ?_, rfl, ?_⟩
  · rw [clone_lookupName, hl]
    rfl
  · intro destinationType
    rfl

/-- C10 witness: a field with a non-empty default suggestion (the original
returns it with `ok = true`), whose clone returns the empty column and
`false`. -/
theorem C10_clone_drops_suggestions_witness :
    (∃ cfld,
      lookupName (Fields.Clone [("a", NewFieldWithSQLType DataType.STRING
          (some ⟨{ type_ := "varchar" }, []⟩))]) "a" = some cfld ∧
      cfld.sqlTypeSuggestion = none ∧
      ∀ destinationType, cfld.GetSuggestedSQLType destinationType = ({}, false)) ∧
    ((NewFieldWithSQLType DataType.STRING
        (some ⟨{ type_ := "varchar" }, []⟩)).GetSuggestedSQLType "postgres").2 = true := by
  refine ⟨C10_clone_drops_suggestions _ "a" _ rfl rfl, ?_⟩
  decide

/-- C1: the diff's column set holds exactly the names present in the desired
table and absent from the current one (so existing columns are never dropped
or retyped by the patch), and the patch is the non-existent sentinel when the
desired table does not exist. -/
theorem C1_diff_additive (t : Table) (another : Option Table) (name : String) :
    ((lookupName (Table.Diff t another).Columns name).isSome = true ↔
      (∃ a, another = some a ∧ (lookupName a.Columns name).isSome = true ∧
        lookupName t.Columns name = none)) ∧
    (Table.ExistsB another = false →
      Table.ExistsB (some (Table.Diff t another)) = false) := by
  constructor
  · rw [diff_columns]
    by_cases h : Table.ExistsB another
    · cases another with
      | none => simp [Table.ExistsB] at h
      | some a =>
          simp only [h, if_pos, ite_true]
          rw [lookupName_filter_absent]
          by_cases ht : lookupName t.Columns name = none
          · rw [if_pos ht]
            constructor
            · intro hsome
              exact ⟨a, rfl, hsome, ht⟩
            · rintro ⟨a2, ha2, hsome, _⟩
              cases ha2
              exact hsome
          · rw [if_neg ht]
            constructor
            · intro hfalse
              simp at hfalse
            · rintro ⟨a2, ha2, _, hnone⟩
              exact absurd hnone ht
    · simp only [h, if_neg, ite_false]
      rw [Bool.not_eq_true] at h
      constructor
      · intro hsome
        simp [lookupName] at hsome
      · rintro ⟨a, ha, hsome, _⟩
        subst ha
        rw [existsB_false_columns a h] at hsome
        simp [lookupName] at hsome
  · intro hfalse
    rw [diff_not_exists t another hfalse]
    rfl

/-- C1 witness: a concrete instance of the sentinel clause via the theorem,
together with a membership instance. -/
theorem C1_diff_additive_witness :
    Table.ExistsB (some (Table.Diff { Schema := "s", Name := "t" } none)) = false ∧
    (lookupName (Table.Diff { Schema := "s", Name := "t" }
      (some { Columns := [("a", { type_ := "text" })] })).Columns "a").isSome = true := by
  constructor
  · exact (C1_diff_additive { Schema := "s", Name := "t" } none "a").2 rfl
  · exact ((C1_diff_additive { Schema := "s", Name := "t" }
      (some { Columns := [("a", { type_ := "text" })] }) "a").1).mpr
      ⟨_, rfl, by decide, rfl⟩

/-- The current table of the C2 counterexample: system-managed (empty)
constraint name and PK `{"id"}`. -/
def pkCurrent : Table :=
  { Schema := "s", Name := "t", PKFields := {"id"} }

/-- The desired table of the C2 counterexample: the non-existent sentinel
(no columns, no PK fields, no delete flag), whose PK set is empty. -/
def emptySentinel : Table := {}

/-- C2 counterexample: `pkCurrent` has an empty constraint name and PK fields
`{"id"}` differing (as a set) from the desired `emptySentinel`'s empty PK set,
so the claim's second branch demands a patch with delete-flag true and the
desired PK fields; but because the desired table does not exist, the code
early-returns a patch with no PK change at all. -/
theorem C2_counterexample :
    pkCurrent.PrimaryKeyName = "" ∧
    0 < pkCurrent.PKFields.card ∧
    pkCurrent.PKFields ≠ emptySentinel.PKFields ∧
    Table.ExistsB (some emptySentinel) = false ∧
    (Table.Diff pkCurrent (some emptySentinel)).DeletePkFields = false ∧
    (Table.Diff pkCurrent (some emptySentinel)).PKFields = ∅ ∧
    (Table.Diff pkCurrent (some emptySentinel)).PrimaryKeyName = "" := by
  decide

/-- C2 amended: PROVIDED the desired table exists, the source's PK lifecycle
is as claimed — an externally managed constraint name (non-empty and different
from the system-generated `"<schema>_<table>_pk"`) suppresses any PK change
regardless of the desired table (this clause needs no existence proviso);
else differing non-empty current PK fields yield delete-and-recreate with the
desired fields and the system name; else a PK is created when only the
desired table has PK fields; and equal PK field sets yield no PK action. -/
theorem C2_pk_lifecycle :
    (∀ (t : Table) (another : Option Table),
      t.PrimaryKeyName ≠ "" → t.PrimaryKeyName ≠ BuildConstraintName t.Schema t.Name →
      (Table.Diff t another).PKFields = ∅ ∧
      (Table.Diff t another).DeletePkFields = false ∧
      (Table.Diff t another).PrimaryKeyName = "") ∧
    (∀ (t a : Table), Table.ExistsB (some a) = true →
      (t.PrimaryKeyName = "" ∨ t.PrimaryKeyName = BuildConstraintName t.Schema t.Name) →
      0 < t.PKFields.card → t.PKFields ≠ a.PKFields →
      (Table.Diff t (some a)).PKFields = a.PKFields ∧
      (Table.Diff t (some a)).DeletePkFields = true ∧
      (Table.Diff t (some a)).PrimaryKeyName = BuildConstraintName t.Schema t.Name) ∧
    (∀ (t a : Table), Table.ExistsB (some a) = true →
      (t.PrimaryKeyName = "" ∨ t.PrimaryKeyName = BuildConstraintName t.Schema t.Name) →
      t.PKFields.card = 0 → 0 < a.PKFields.card →
      (Table.Diff t (some a)).PKFields = a.PKFields ∧
      (Table.Diff t (some a)).DeletePkFields = false ∧
      (Table.Diff t (some a)).PrimaryKeyName = BuildConstraintName t.Schema t.Name) ∧
    (∀ (t a : Table), Table.ExistsB (some a) = true →
      t.PKFields = a.PKFields →
      (Table.Diff t (some a)).PKFields = ∅ ∧
      (Table.Diff t (some a)).DeletePkFields = false ∧
      (Table.Diff t (some a)).PrimaryKeyName = "") := by
  refine ⟨?_, ?_, ?_, ?_⟩
  · intro t another hne hnj
    by_cases hex : Table.ExistsB another
    · cases another with
      | none => simp [Table.ExistsB] at hex
      | some a =>
          have hc := diff_pk_cases t a hex
          rw [if_pos ⟨hne, hnj⟩] at hc
          simp only [Prod.mk.injEq] at hc
          exact ⟨hc.1, hc.2.1, hc.2.2⟩
    · rw [diff_not_exists t another (Bool.not_eq_true _ |>.mp hex)]
      exact ⟨rfl, rfl, rfl⟩
  · intro t a hex hok hcard hne
    have hc := diff_pk_cases t a hex
    have hnf : ¬ (t.PrimaryKeyName ≠ "" ∧
        t.PrimaryKeyName ≠ BuildConstraintName t.Schema t.Name) := by
      rcases hok with h | h <;> simp [h]
    rw [if_neg hnf, if_pos hcard, if_pos hne] at hc
    simp only [Prod.mk.injEq] at hc
    exact ⟨hc.1, hc.2.1, hc.2.2⟩
  · intro t a hex hok hzero hpos
    have hc := diff_pk_cases t a hex
    have hnf : ¬ (t.PrimaryKeyName ≠ "" ∧
        t.PrimaryKeyName ≠ BuildConstraintName t.Schema t.Name) := by
      rcases hok with h | h <;> simp [h]
    rw [if_neg hnf, if_neg (by omega), if_pos hpos] at hc
    simp only [Prod.mk.injEq] at hc
    exact ⟨hc.1, hc.2.1, hc.2.2⟩
  · intro t a hex heq
    have hc := diff_pk_cases t a hex
    by_cases hnf : t.PrimaryKeyName ≠ "" ∧
        t.PrimaryKeyName ≠ BuildConstraintName t.Schema t.Name
    · rw [if_pos hnf] at hc
      simp only [Prod.mk.injEq] at hc
      exact ⟨hc.1, hc.2.1, hc.2.2⟩
    · rw [if_neg hnf] at hc
      by_cases hcard : 0 < t.PKFields.card
      · rw [if_pos hcard, if_neg (by simp [heq])] at hc
        simp only [Prod.mk.injEq] at hc
        exact ⟨hc.1, hc.2.1, hc.2.2⟩
      · have hpos : ¬ 0 < a.PKFields.card := by rw [← heq]; exact hcard
        rw [if_neg hcard, if_neg hpos] at hc
        simp only [Prod.mk.injEq] at hc
        exact ⟨hc.1, hc.2.1, hc.2.2⟩

/-- A current table whose PK `{"id"}` carries the system-generated constraint
name, for the C2 witness (the spec's first lifecycle example). -/
def pkCurrentSys : Table :=
  { Schema := "s", Name := "t", PKFields := {"id"}, PrimaryKeyName := "s_t_pk" }

/-- A desired table with PK `{"id","tenant"}`, for the C2 witness. -/
def desiredTwoPk : Table := { PKFields := {"id", "tenant"} }

/-- A current table without PK fields, for the C2 witness (the spec's second
lifecycle example). -/
def noPkCurrent : Table := { Schema := "s", Name := "t" }

/-- A desired table with PK `{"id"}`, for the C2 witness. -/
def desiredOnePk : Table := { PKFields := {"id"} }

/-- C2 witness: the spec's two lifecycle examples via the theorem — current PK
`{"id"}` under the system name against desired PK `{"id","tenant"}` gives
delete-and-recreate; current without PK against desired PK `{"id"}` gives a
create without the delete flag. -/
theorem C2_pk_lifecycle_witness :
    (Table.Diff pkCurrentSys (some desiredTwoPk)).DeletePkFields = true ∧
    (Table.Diff pkCurrentSys (some desiredTwoPk)).PKFields =
      ({"id", "tenant"} : Finset String) ∧
    (Table.Diff noPkCurrent (some desiredOnePk)).DeletePkFields = false ∧
    (Table.Diff noPkCurrent (some desiredOnePk)).PKFields = ({"id"} : Finset String) := by
  have h2 := C2_pk_lifecycle.2.1 pkCurrentSys desiredTwoPk (by decide)
    (Or.inr (by decide)) (by decide) (by decide)
  have h3 := C2_pk_lifecycle.2.2.1 noPkCurrent desiredOnePk (by decide) (Or.inl rfl)
    (by decide) (by decide)
  exact ⟨h2.2.1, h2.1, h3.2.1, h3.1⟩

/-- C7 counterexample: a 504 response — a server-side 5xx — is NOT retried:
the upload returns a terminal failure after a single attempt instead of
exhausting the five-entry schedule (the code retries only 500, 502 and
503). -/
theorem C7_counterexample :
    (MixpanelUpload (fun _ => .response 504 "gateway timeout")).isErr = true ∧
    (MixpanelUpload (fun _ => .response 504 "gateway timeout")).attempts = 1 ∧
    retryDelaysMs.length = 5 := by
  exact ⟨rfl, rfl, rfl⟩

/-- C7 amended: server-side 500, 502 and 503 responses (not every 5xx) and
transport errors are retried through the fixed five-entry schedule, after
whose exhaustion a terminal failure is returned; any other status ends the
loop at once — a success for 200 and for a 400 whose body holds the
partial-validation marker, a terminal failure otherwise (so 4xx, and equally
504 and the like, are terminal without retry). -/
theorem C7_upload_retries (responses : Nat → HttpOutcome) :
    ((∀ i, i < retryDelaysMs.length → retryable (responses i) = true) →
      (MixpanelUpload responses).isErr = true ∧
      (MixpanelUpload responses).attempts = retryDelaysMs.length) ∧
    (∀ k st rb, k < retryDelaysMs.length →
      (∀ i, i < k → retryable (responses i) = true) →
      responses k = .response st rb →
      retryable (.response st rb) = false →
      (MixpanelUpload responses).statusCode = st ∧
      (MixpanelUpload responses).respBody = rb ∧
      (MixpanelUpload responses).attempts = k + 1 ∧
      ((MixpanelUpload responses).isErr = false ↔
        (st = 200 ∨ (st = 400 ∧ containsMarker rb = true)))) := by
  constructor
  · intro hall
    have h := uploadLoop_all_retryable responses retryDelaysMs 0 0 "" false
      (by intro i _ h2; exact hall i (by simpa using h2))
    refine ⟨?_, by simpa [MixpanelUpload] using h.1⟩
    unfold MixpanelUpload
    rw [h.2]
    rfl
  · intro k st rb hk hall hr hnr
    have h := uploadLoop_stops responses retryDelaysMs k 0 0 "" false st rb hk
      (by intro i hi; simpa using hall i hi) (by simpa using hr) hnr
    exact ⟨by simpa [MixpanelUpload] using h.1, by simpa [MixpanelUpload] using h.2.1,
      by simpa [MixpanelUpload] using h.2.2.1, by simpa [MixpanelUpload] using h.2.2.2⟩

/-- C7 witness: five consecutive 503 responses exhaust the schedule and yield
a terminal failure (spec Scenario C), via the theorem. -/
theorem C7_upload_retries_witness :
    (MixpanelUpload (fun _ => .response 503 "service unavailable")).isErr = true ∧
    (MixpanelUpload (fun _ => .response 503 "service unavailable")).attempts = 5 := by
  have h := (C7_upload_retries (fun _ => .response 503 "service unavailable")).1
    (by intro i _; rfl)
  exact ⟨h.1, h.2⟩

/-- C9: `CreateStream` yields a stream only for the `Batch` mode; `Stream`,
`ReplaceTable` and `ReplacePartition` are rejected at creation with the
unsupported-mode message, and any unrecognized mode value is rejected with a
failure naming that mode. -/
theorem C9_createStream_modes :
    MixpanelCreateStream BulkMode.Batch = .ok () ∧
    MixpanelCreateStream BulkMode.Stream = .error MixpanelUnsupported ∧
    MixpanelCreateStream BulkMode.ReplaceTable = .error MixpanelUnsupported ∧
    MixpanelCreateStream BulkMode.ReplacePartition = .error MixpanelUnsupported ∧
    (∀ mode : BulkMode, mode ≠ BulkMode.Stream → mode ≠ BulkMode.Batch →
      mode ≠ BulkMode.ReplaceTable → mode ≠ BulkMode.ReplacePartition →
      MixpanelCreateStream mode = .error ("unsupported bulk mode: " ++ mode)) ∧
    (∀ (mode : BulkMode) (u : Unit), MixpanelCreateStream mode = .ok u →
      mode = BulkMode.Batch) := by
  refine ⟨rfl, rfl, rfl, rfl, ?_, ?_⟩
  · intro mode h1 h2 h3 h4
    unfold MixpanelCreateStream
    rw [if_neg h1, if_neg h2, if_neg h3, if_neg h4]
  · intro mode u h
    unfold MixpanelCreateStream at h
    split_ifs at h with h1 h2 h3 h4 <;> first | exact h2 | simp at h

/-- C9 witness: an unrecognized mode value is rejected with the mode-naming
message, via the theorem. -/
theorem C9_createStream_modes_witness :
    MixpanelCreateStream "bogus_mode" = .error ("unsupported bulk mode: " ++ "bogus_mode") :=
  C9_createStream_modes.2.2.2.2.1 "bogus_mode" (by decide) (by decide) (by decide)
    (by decide)

/-- C8: in the reference-cell model, `Fields.Clone` yields a fully independent
deep copy: same length, keys, cached types and occurrence-set contents; every
cloned occurrence cell is distinct from every original's; overwriting any
cloned cell (which subsumes adding or removing occurrence kinds there, and
merging into the clone) leaves every original field's occurrence set and
resolved type exactly as before the clone; and overwriting any original cell
leaves every cloned field's occurrence set unchanged. -/
theorem C8_clone_independent (f : FieldsH) (st : OccStore) (hwf : FieldsH.WF f st) :
    ((FieldsH.CloneH f st).1.length = f.length) ∧
    (∀ (i : Nat) (hi : i < f.length) (hc : i < (FieldsH.CloneH f st).1.length),
      ((FieldsH.CloneH f st).1.get ⟨i, hc⟩).1 = (f.get ⟨i, hi⟩).1 ∧
      ((FieldsH.CloneH f st).1.get ⟨i, hc⟩).2.dataType = (f.get ⟨i, hi⟩).2.dataType ∧
      (FieldsH.CloneH f st).2.read ((FieldsH.CloneH f st).1.get ⟨i, hc⟩).2.occRef =
        st.read ((f.get ⟨i, hi⟩).2.occRef)) ∧
    (∀ q ∈ (FieldsH.CloneH f st).1, ∀ p ∈ f, q.2.occRef ≠ p.2.occRef) ∧
    (∀ q ∈ (FieldsH.CloneH f st).1, ∀ s : Finset DataType, ∀ p ∈ f,
      ((FieldsH.CloneH f st).2.write q.2.occRef s).read p.2.occRef = st.read p.2.occRef ∧
      FieldH.GetTypeH ((FieldsH.CloneH f st).2.write q.2.occRef s) p.2 =
        FieldH.GetTypeH st p.2) ∧
    (∀ p ∈ f, ∀ s : Finset DataType, ∀ q ∈ (FieldsH.CloneH f st).1,
      ((FieldsH.CloneH f st).2.write p.2.occRef s).read q.2.occRef =
        (FieldsH.CloneH f st).2.read q.2.occRef) := by
  have hfresh : ∀ q ∈ (FieldsH.CloneH f st).1, ∀ p ∈ f, q.2.occRef ≠ p.2.occRef := by
    intro q hq p hp
    have h1 := (cloneH_refs f st q hq).1
    have h2 := hwf p hp
    omega
  have hpres : ∀ p ∈ f, (FieldsH.CloneH f st).2.read p.2.occRef = st.read p.2.occRef := by
    intro p hp
    exact cloneH_read_lt f st _ (hwf p hp)
  refine ⟨cloneH_length f st, cloneH_entry f st hwf, hfresh, ?_, ?_⟩
  · intro q hq s p hp
    have hne := hfresh q hq p hp
    have hr : ((FieldsH.CloneH f st).2.write q.2.occRef s).read p.2.occRef =
        st.read p.2.occRef := by
      rw [read_write_ne _ _ _ _ hne, hpres p hp]
    refine ⟨hr, getTypeH_congr _ _ _ ?_⟩
    exact hr
  · intro p hp s q hq
    have hne := hfresh q hq p hp
    exact read_write_ne _ _ _ _ (fun hc => hne hc.symm)

/-- C8 witness: a one-field instance — overwriting the clone's fresh cell
leaves the original's occurrence set `{BOOL}` intact, via the theorem. -/
theorem C8_clone_independent_witness :
    ((FieldsH.CloneH [("a", FieldH.mk none 0)]
        (OccStore.mk [(0, {DataType.BOOL})] 1)).2.write
      ("a", FieldH.mk none 1).2.occRef {DataType.STRING}).read
        ("a", FieldH.mk none 0).2.occRef = ({DataType.BOOL} : Finset DataType) := by
  have h := (C8_clone_independent [("a", FieldH.mk none 0)]
      (OccStore.mk [(0, {DataType.BOOL})] 1)
      (by intro p hp; simp only [List.mem_singleton] at hp; rw [hp]; exact Nat.lt_succ_self 0)
    ).2.2.2.1 ("a", FieldH.mk none 1) (by decide) {DataType.STRING}
    ("a", FieldH.mk none 0) (by decide)
  rw [h.1]
  decide

end Bulker
